import Mathlib

/-!
Verification of the berachain/metadata maintenance scripts.

Each script's decision logic is shallowly embedded as executable Lean
definitions.  File-system and network effects are made explicit: file contents
are passed in and returned as values, HTTP/contract-call results are supplied
as `Except`/outcome parameters, and external library functions (the keccak hash
used by viem's `getAddress`, the sharp image resampler) are parameters that the
theorems quantify over.  JavaScript strings are modeled as Lean `String`s
(or lists of character codes), with ASCII case mapping for `toLowerCase` /
`toUpperCase`, which is faithful on the ASCII data these scripts handle.
-/

set_option maxRecDepth 4000

/-- ASCII lower-casing of one character, as JavaScript's toLowerCase acts on
the ASCII range. -/
def jsLowerChar (c : Char) : Char :=
  if 65 ≤ c.toNat ∧ c.toNat ≤ 90 then Char.ofNat (c.toNat + 32) else c

/-- JavaScript's `String.prototype.toLowerCase` restricted to ASCII. -/
def jsLower (s : String) : String := String.mk (s.data.map jsLowerChar)

/-- Generic check that the first list is a leading segment of the second. -/
def takesLead {α : Type} [BEq α] : List α → List α → Bool
  | [], _ => true
  | _ :: _, [] => false
  | p :: ps, c :: cs => p == c && takesLead ps cs

/-- Generic contiguous-subsequence test: `containsSeq s pat` is true when
`pat` occurs contiguously inside `s` (JavaScript's `s.includes(pat)`). -/
def containsSeq {α : Type} [BEq α] : List α → List α → Bool
  | [], pat => pat.isEmpty
  | c :: cs, pat => takesLead pat (c :: cs) || containsSeq cs pat

/-- JavaScript's `s.includes(pat)` on strings. -/
def jsIncludes (s pat : String) : Bool := containsSeq s.data pat.data

/-! ## Data model: local vault records (src/vaults/<chain>.json entries) -/

/-- One entry of the `vaults` array of a vaults metadata file.  Optional JSON
fields are `Option`s; fields absent from an object are `none`. -/
structure VaultRecord where
  stakingTokenAddress : String := ""
  vaultAddress : String
  name : String := ""
  protocol : String := ""
  logoURI : Option String := none
  url : String := ""
  categories : List String := []
  description : Option String := none
  owner : Option String := none
  action : Option String := none
deriving DecidableEq, Repr

/-! ## findVaultsNotInApi.ts: fetchAllVaultsFromApi and the `remove` mode -/

/-- A vault object of the simple GraphQL listing query (only the field the
set construction reads). -/
structure RemoteVaultLite where
  vaultAddress : String
deriving DecidableEq, Repr

/-- `Set.prototype.add` modeled on a duplicate-free list. -/
def setAdd (s : List String) (x : String) : List String :=
  if x ∈ s then s else s ++ [x]

/-- `fetchAllVaultsFromApi`: pages through the listing endpoint and collects
`vault.vaultAddress.toLowerCase()` of every returned vault into a set.  The
pages actually returned by the API are passed in as `batches`. -/
def fetchAllVaultsFromApi (batches : List (List RemoteVaultLite)) : List String :=
  batches.foldl
    (fun acc batch => batch.foldl (fun s v => setAdd s (jsLower v.vaultAddress)) acc) []

/-- The mutation performed by `removeVaultsNotInApi`: keep exactly the local
entries whose lower-cased address is in the fetched set, in order. -/
def removeVaultsNotInApi (localVaults : List VaultRecord)
    (apiVaultAddresses : List String) : List VaultRecord :=
  localVaults.filter (fun v => apiVaultAddresses.contains (jsLower v.vaultAddress))

theorem mem_setAdd (s : List String) (x y : String) :
    y ∈ setAdd s x ↔ y ∈ s ∨ y = x := by
  unfold setAdd
  split
  · next h =>
    constructor
    · exact Or.inl
    · rintro (hy | rfl)
      · exact hy
      · exact h
  · simp [List.mem_append]

theorem mem_foldl_setAdd (b : List RemoteVaultLite) (s : List String) (x : String) :
    x ∈ b.foldl (fun s v => setAdd s (jsLower v.vaultAddress)) s ↔
      x ∈ s ∨ ∃ v ∈ b, jsLower v.vaultAddress = x := by
  induction b generalizing s with
  | nil => simp
  | cons v vs ih =>
    simp only [List.foldl_cons, ih, mem_setAdd, List.mem_cons]
    constructor
    · rintro ((h | rfl) | ⟨w, hw, rfl⟩)
      · exact Or.inl h
      · exact Or.inr ⟨v, Or.inl rfl, rfl⟩
      · exact Or.inr ⟨w, Or.inr hw, rfl⟩
    · rintro (h | ⟨w, (rfl | hw), rfl⟩)
      · exact Or.inl (Or.inl h)
      · exact Or.inl (Or.inr rfl)
      · exact Or.inr ⟨w, hw, rfl⟩

theorem mem_fetchAllVaultsFromApi (batches : List (List RemoteVaultLite)) (x : String) :
    x ∈ fetchAllVaultsFromApi batches ↔
      ∃ v ∈ batches.flatten, jsLower v.vaultAddress = x := by
  unfold fetchAllVaultsFromApi
  suffices h : ∀ s, x ∈ batches.foldl
      (fun acc batch => batch.foldl (fun s v => setAdd s (jsLower v.vaultAddress)) acc) s ↔
      x ∈ s ∨ ∃ v ∈ batches.flatten, jsLower v.vaultAddress = x by
    simpa using h []
  induction batches with
  | nil => simp
  | cons b bs ih =>
    intro s
    simp only [List.foldl_cons, ih, mem_foldl_setAdd, List.flatten, List.mem_append]
    constructor
    · rintro ((h | ⟨v, hv, rfl⟩) | ⟨v, hv, rfl⟩)
      · exact Or.inl h
      · exact Or.inr ⟨v, by simp [hv], rfl⟩
      · exact Or.inr ⟨v, by simp [hv], rfl⟩
    · rintro (h | ⟨v, hv, rfl⟩)
      · exact Or.inl (Or.inl h)
      · rcases hv with h1 | h2
        · exact Or.inl (Or.inr ⟨v, h1, rfl⟩)
        · exact Or.inr ⟨v, h2, rfl⟩

/-- C2: the reconciliation `remove` produces exactly the subsequence of the
local list consisting of the entries whose lower-cased `vaultAddress` matches
(case-insensitively) some address returned by the remote listing; survivors
keep their original relative order (the result is a sublist of the input). -/
theorem removeVaultsNotInApi_spec (localVaults : List VaultRecord)
    (batches : List (List RemoteVaultLite)) :
    removeVaultsNotInApi localVaults (fetchAllVaultsFromApi batches) =
      localVaults.filter
        (fun v => decide (∃ r ∈ batches.flatten,
          jsLower r.vaultAddress = jsLower v.vaultAddress)) ∧
    (removeVaultsNotInApi localVaults (fetchAllVaultsFromApi batches)).Sublist localVaults := by
  constructor
  · unfold removeVaultsNotInApi
    apply List.filter_congr
    intro v _
    have h := mem_fetchAllVaultsFromApi batches (jsLower v.vaultAddress)
    by_cases hm : jsLower v.vaultAddress ∈ fetchAllVaultsFromApi batches
    · have h1 : (fetchAllVaultsFromApi batches).contains (jsLower v.vaultAddress) = true :=
        List.elem_iff.mpr hm
      have h2 : decide (∃ r ∈ batches.flatten,
          jsLower r.vaultAddress = jsLower v.vaultAddress) = true :=
        decide_eq_true (h.mp hm)
      rw [h1, h2]
    · have h1 : (fetchAllVaultsFromApi batches).contains (jsLower v.vaultAddress) = false :=
        Bool.eq_false_iff.mpr (fun hc => hm (List.elem_iff.mp hc))
      have h2 : decide (∃ r ∈ batches.flatten,
          jsLower r.vaultAddress = jsLower v.vaultAddress) = false :=
        decide_eq_false (fun hex => hm (h.mpr hex))
      rw [h1, h2]
  · exact List.filter_sublist _

/-! ## imageGeneration/updateMetadata.ts: updateVaultLogoURI -/

/-- The state of the `src/vaults/<chain>.json` file as the script sees it:
either its text fails to read/JSON-parse (the thrown message), or the parsed
vaults array. -/
inductive VaultsFileState where
  | unparsable (err : String)
  | parsed (vaults : List VaultRecord)
deriving DecidableEq, Repr

/-- The result record returned by `updateVaultLogoURI`. -/
structure MetadataUpdateResult where
  success : Bool
  filePath : String
  vaultAddress : String
  error : Option String := none
deriving DecidableEq, Repr

/-- The in-place assignment `vaultsData.vaults[vaultIndex].logoURI = logoURI`. -/
def setLogoAt : List VaultRecord → Nat → String → List VaultRecord
  | [], _, _ => []
  | v :: vs, 0, uri => { v with logoURI := some uri } :: vs
  | v :: vs, n + 1, uri => v :: setLogoAt vs n uri

/-- `updateVaultLogoURI`: find the first vault whose address matches
case-insensitively, set its `logoURI`, and rewrite the whole file; report
failure (without writing) when the file cannot be read/parsed or when no
vault matches. -/
def updateVaultLogoURI (vaultAddress logoURI chain : String)
    (file : VaultsFileState) : MetadataUpdateResult × VaultsFileState :=
  let filePath := "src/vaults/" ++ chain ++ ".json"
  match file with
  | .unparsable err =>
    ({ success := false, filePath := filePath, vaultAddress := vaultAddress,
       error := some err }, .unparsable err)
  | .parsed vaults =>
    match vaults.findIdx? (fun v => jsLower v.vaultAddress == jsLower vaultAddress) with
    | none =>
      ({ success := false, filePath := filePath, vaultAddress := vaultAddress,
         error := some ("Vault with address " ++ vaultAddress ++ " not found in " ++ filePath) },
       .parsed vaults)
    | some vaultIndex =>
      ({ success := true, filePath := filePath, vaultAddress := vaultAddress },
       .parsed (setLogoAt vaults vaultIndex logoURI))

theorem setLogoAt_length (vs : List VaultRecord) (i : Nat) (uri : String) :
    (setLogoAt vs i uri).length = vs.length := by
  induction vs generalizing i with
  | nil => rfl
  | cons v vs ih =>
    cases i with
    | zero => rfl
    | succ n => simpa [setLogoAt] using ih n

theorem setLogoAt_getElem_ne (vs : List VaultRecord) (i : Nat) (uri : String)
    (j : Nat) (hj : j ≠ i) : (setLogoAt vs i uri)[j]? = vs[j]? := by
  induction vs generalizing i j with
  | nil => rfl
  | cons v vs ih =>
    cases i with
    | zero =>
      cases j with
      | zero => exact absurd rfl hj
      | succ m => simp [setLogoAt]
    | succ n =>
      cases j with
      | zero => simp [setLogoAt]
      | succ m =>
        simp only [setLogoAt, List.getElem?_cons_succ]
        exact ih n m (fun h => hj (by rw [h]))

theorem setLogoAt_getElem_eq (vs : List VaultRecord) (i : Nat) (uri : String)
    (v : VaultRecord) (hv : vs[i]? = some v) :
    (setLogoAt vs i uri)[i]? = some { v with logoURI := some uri } := by
  induction vs generalizing i with
  | nil => simp at hv
  | cons w vs ih =>
    cases i with
    | zero =>
      simp only [List.getElem?_cons_zero, Option.some_inj] at hv
      subst hv
      simp [setLogoAt]
    | succ n =>
      simp only [List.getElem?_cons_succ] at hv
      simp only [setLogoAt, List.getElem?_cons_succ]
      exact ih n hv

/-- C3: when `updateVaultLogoURI` reports success on a parsed file, the new
file differs from the old one only at the first entry whose `vaultAddress`
matches the requested address case-insensitively, and that entry differs only
in its `logoURI` field (every other field and every other entry is unchanged,
and the number of entries is unchanged). -/
theorem updateVaultLogoURI_frame (vaultAddress logoURI chain : String)
    (vaults : List VaultRecord)
    (h : (updateVaultLogoURI vaultAddress logoURI chain (.parsed vaults)).1.success = true) :
    ∃ i v,
      vaults.findIdx? (fun v => jsLower v.vaultAddress == jsLower vaultAddress) = some i ∧
      vaults[i]? = some v ∧
      (updateVaultLogoURI vaultAddress logoURI chain (.parsed vaults)).2 =
        .parsed (setLogoAt vaults i logoURI) ∧
      (setLogoAt vaults i logoURI).length = vaults.length ∧
      (setLogoAt vaults i logoURI)[i]? = some { v with logoURI := some logoURI } ∧
      (∀ j, j ≠ i → (setLogoAt vaults i logoURI)[j]? = vaults[j]?) := by
  unfold updateVaultLogoURI at h ⊢
  cases hidx : vaults.findIdx? (fun v => jsLower v.vaultAddress == jsLower vaultAddress) with
  | none => simp [hidx] at h
  | some i =>
    have hi : i < vaults.length :=
      ((List.findIdx?_eq_some_iff_findIdx_eq).mp hidx).1
    obtain ⟨v, hv⟩ : ∃ v, vaults[i]? = some v := ⟨vaults[i], (List.getElem?_eq_some_iff).mpr ⟨hi, rfl⟩⟩
    refine ⟨i, v, rfl, hv, ?_, setLogoAt_length vaults i logoURI,
      setLogoAt_getElem_eq vaults i logoURI v hv,
      fun j hj => setLogoAt_getElem_ne vaults i logoURI j hj⟩
    simp [hidx]

/-- Instantiation of C3 at a concrete one-entry file. -/
theorem updateVaultLogoURI_frame_witness :
    ((updateVaultLogoURI "0xAB" "https://img/x.png" "mainnet"
        (.parsed [{ vaultAddress := "0xab", name := "V" }])).1.success = true) ∧
    (∃ i v,
      [({ vaultAddress := "0xab", name := "V" } : VaultRecord)].findIdx?
          (fun v => jsLower v.vaultAddress == jsLower "0xAB") = some i ∧
      [({ vaultAddress := "0xab", name := "V" } : VaultRecord)][i]? = some v ∧
      (updateVaultLogoURI "0xAB" "https://img/x.png" "mainnet"
          (.parsed [{ vaultAddress := "0xab", name := "V" }])).2 =
        .parsed (setLogoAt [{ vaultAddress := "0xab", name := "V" }] i "https://img/x.png") ∧
      (setLogoAt [{ vaultAddress := "0xab", name := "V" }] i "https://img/x.png").length =
        [({ vaultAddress := "0xab", name := "V" } : VaultRecord)].length ∧
      (setLogoAt [{ vaultAddress := "0xab", name := "V" }] i "https://img/x.png")[i]? =
        some { v with logoURI := some "https://img/x.png" } ∧
      (∀ j, j ≠ i →
        (setLogoAt [{ vaultAddress := "0xab", name := "V" }] i "https://img/x.png")[j]? =
          [({ vaultAddress := "0xab", name := "V" } : VaultRecord)][j]?)) :=
  ⟨by decide, updateVaultLogoURI_frame "0xAB" "https://img/x.png" "mainnet"
      [{ vaultAddress := "0xab", name := "V" }] (by decide)⟩

/-- C10: on a parsed file with no case-insensitively matching vault,
`updateVaultLogoURI` reports failure with a non-empty error message and leaves
the file untouched; on a file that fails to read/parse it likewise reports
failure (carrying the thrown message) and performs no write. -/
theorem append_ne_empty_left (a b : String) (h : a ≠ "") : a ++ b ≠ "" := by
  intro hc
  have hd := congrArg String.data hc
  rw [String.data_append] at hd
  simp at hd
  exact h (by cases a with | mk d => simp at hd; simp [hd.1])

theorem updateVaultLogoURI_error_paths (vaultAddress logoURI chain : String)
    (vaults : List VaultRecord) (err : String)
    (hmiss : ∀ v ∈ vaults, jsLower v.vaultAddress ≠ jsLower vaultAddress) :
    ((updateVaultLogoURI vaultAddress logoURI chain (.parsed vaults)).1.success = false ∧
     (∃ msg, (updateVaultLogoURI vaultAddress logoURI chain (.parsed vaults)).1.error =
        some msg ∧ msg ≠ "") ∧
     (updateVaultLogoURI vaultAddress logoURI chain (.parsed vaults)).2 = .parsed vaults) ∧
    ((updateVaultLogoURI vaultAddress logoURI chain (.unparsable err)).1.success = false ∧
     (updateVaultLogoURI vaultAddress logoURI chain (.unparsable err)).1.error = some err ∧
     (updateVaultLogoURI vaultAddress logoURI chain (.unparsable err)).2 = .unparsable err) := by
  have hidx : vaults.findIdx? (fun v => jsLower v.vaultAddress == jsLower vaultAddress) = none := by
    rw [List.findIdx?_eq_none_iff]
    intro v hv
    simpa using hmiss v hv
  refine ⟨⟨?_, ⟨"Vault with address " ++ vaultAddress ++ " not found in " ++
      ("src/vaults/" ++ chain ++ ".json"), ?_, ?_⟩, ?_⟩, by simp [updateVaultLogoURI]⟩
  · simp [updateVaultLogoURI, hidx]
  · simp [updateVaultLogoURI, hidx]
  · exact append_ne_empty_left _ _ (append_ne_empty_left _ _
      (append_ne_empty_left _ _ (by decide)))
  · simp [updateVaultLogoURI, hidx]

/-- Instantiation of C10 at a concrete file whose one entry does not match. -/
theorem updateVaultLogoURI_error_paths_witness :
    ((updateVaultLogoURI "0xCD" "u" "mainnet"
        (.parsed [{ vaultAddress := "0xab" }])).1.success = false ∧
     (∃ msg, (updateVaultLogoURI "0xCD" "u" "mainnet"
        (.parsed [{ vaultAddress := "0xab" }])).1.error = some msg ∧ msg ≠ "") ∧
     (updateVaultLogoURI "0xCD" "u" "mainnet"
        (.parsed [{ vaultAddress := "0xab" }])).2 = .parsed [{ vaultAddress := "0xab" }]) ∧
    ((updateVaultLogoURI "0xCD" "u" "mainnet"
        (.unparsable "Unexpected token in JSON")).1.success = false ∧
     (updateVaultLogoURI "0xCD" "u" "mainnet"
        (.unparsable "Unexpected token in JSON")).1.error = some "Unexpected token in JSON" ∧
     (updateVaultLogoURI "0xCD" "u" "mainnet"
        (.unparsable "Unexpected token in JSON")).2 = .unparsable "Unexpected token in JSON") :=
  updateVaultLogoURI_error_paths "0xCD" "u" "mainnet" [{ vaultAddress := "0xab" }]
    "Unexpected token in JSON" (by decide)

/-! ## findVaultsNotInApi.ts: the `add` mode (hasNoMetadata, inferProtocol,
inferCategory, addVaultsFromApi) -/

/-- The `stakingToken` object of a full API vault record. -/
structure StakingToken where
  address : String
  name : String
  symbol : String
deriving DecidableEq, Repr

/-- The `metadata` object of a full API vault record (each field may be
`null`). -/
structure ApiVaultMetadata where
  name : Option String := none
  logoURI : Option String := none
  url : Option String := none
  protocolName : Option String := none
  protocolIcon : Option String := none
  description : Option String := none
  categories : Option (List String) := none
  action : Option String := none
deriving DecidableEq, Repr

/-- A full API vault record (the fields read by the `add` mode). -/
structure ApiVault where
  vaultAddress : String
  stakingToken : StakingToken
  metadata : Option ApiVaultMetadata := none
deriving DecidableEq, Repr

/-- JavaScript falsiness of a `string | null` value: `null` and `""` are
falsy. -/
def isFalsyStr : Option String → Bool
  | none => true
  | some s => s == ""

/-- `hasNoMetadata`: the metadata object is `null`, or all its string fields
are falsy and `categories` is falsy or empty. -/
def hasNoMetadata (vault : ApiVault) : Bool :=
  match vault.metadata with
  | none => true
  | some m =>
    isFalsyStr m.name && isFalsyStr m.logoURI && isFalsyStr m.url &&
    isFalsyStr m.protocolName && isFalsyStr m.protocolIcon && isFalsyStr m.description &&
    (match m.categories with
     | none => true
     | some cs => cs.length == 0) &&
    isFalsyStr m.action

/-- `inferProtocol`: case-insensitive keyword lookup over the staking token's
name and symbol, falling back to "UNKNOWN". -/
def inferProtocol (stakingTokenName stakingTokenSymbol : String) : String :=
  let name := jsLower stakingTokenName
  let symbol := jsLower stakingTokenSymbol
  if jsIncludes name "kodi" || jsIncludes symbol "kodi" then "Kodiak"
  else if jsIncludes name "infrared" || jsIncludes symbol "i-" then "Infrared"
  else if jsIncludes name "pendle" || jsIncludes symbol "pendle" then "Pendle"
  else if jsIncludes name "beradrome" then "Beradrome"
  else if jsIncludes name "evk" || jsIncludes symbol "elbgt" then "EVK"
  else if jsIncludes name "berapaw" || jsIncludes symbol "berapaw" then "BeraPaw"
  else if jsIncludes name "smilee" || jsIncludes symbol "smilee" then "Smilee"
  else if jsIncludes name "alpha vault" || jsIncludes symbol "av" then "Charm"
  else if jsIncludes name "sweth" || jsIncludes symbol "sweth" then "Swell"
  else "UNKNOWN"

/-- `inferCategory`: case-insensitive keyword lookup over the staking token's
name and symbol, falling back to `["defi/yield"]`. -/
def inferCategory (stakingTokenName stakingTokenSymbol : String) : List String :=
  let name := jsLower stakingTokenName
  let symbol := jsLower stakingTokenSymbol
  if jsIncludes name "amm" || jsIncludes name "pool" || jsIncludes name "liquidity" then
    ["defi/amm"]
  else if jsIncludes name "lending" || jsIncludes name "lend" then ["defi/lending"]
  else if jsIncludes name "liquid" || jsIncludes name "stake" || jsIncludes symbol "elbgt" then
    ["defi/liquid-staking"]
  else if jsIncludes name "yield" || jsIncludes name "vault" then ["defi/yield"]
  else if jsIncludes name "derivative" || jsIncludes name "pendle" then ["defi/derivatives"]
  else ["defi/yield"]

/-- Disjunction of every keyword test appearing in `inferProtocol` and
`inferCategory`.  When this is false, neither table matches. -/
def keywordMatches (stakingTokenName stakingTokenSymbol : String) : Bool :=
  let name := jsLower stakingTokenName
  let symbol := jsLower stakingTokenSymbol
  jsIncludes name "kodi" || jsIncludes symbol "kodi" ||
  jsIncludes name "infrared" || jsIncludes symbol "i-" ||
  jsIncludes name "pendle" || jsIncludes symbol "pendle" ||
  jsIncludes name "beradrome" ||
  jsIncludes name "evk" || jsIncludes symbol "elbgt" ||
  jsIncludes name "berapaw" || jsIncludes symbol "berapaw" ||
  jsIncludes name "smilee" || jsIncludes symbol "smilee" ||
  jsIncludes name "alpha vault" || jsIncludes symbol "av" ||
  jsIncludes name "sweth" || jsIncludes symbol "sweth" ||
  jsIncludes name "amm" || jsIncludes name "pool" || jsIncludes name "liquidity" ||
  jsIncludes name "lending" || jsIncludes name "lend" ||
  jsIncludes name "liquid" || jsIncludes name "stake" ||
  jsIncludes name "yield" || jsIncludes name "vault" ||
  jsIncludes name "derivative"

/-- The placeholder record pushed by the `add` mode for one API vault. -/
def newVaultRecord (v : ApiVault) : VaultRecord :=
  { stakingTokenAddress := v.stakingToken.address
    vaultAddress := v.vaultAddress
    name :=
      if v.stakingToken.name ≠ "" then v.stakingToken.name
      else if v.stakingToken.symbol ≠ "" then v.stakingToken.symbol
      else "Unknown Vault"
    protocol := inferProtocol v.stakingToken.name v.stakingToken.symbol
    categories := inferCategory v.stakingToken.name v.stakingToken.symbol
    logoURI := some "https://res.cloudinary.com/duv0g402y/image/upload/v1746534876/tokens/default.png"
    url := "https://hub.berachain.com"
    description := some ("Placeholder entry for " ++ v.stakingToken.symbol ++
      " vault. Metadata needs to be added.") }

/-- The pagination loop of `addVaultsFromApi` collects, across all pages in
order, the vaults satisfying `hasNoMetadata`. -/
def collectNoMetadata (batches : List (List ApiVault)) : List ApiVault :=
  batches.flatten.filter hasNoMetadata

/-- The append loop of `addVaultsFromApi`: skip addresses already in the
(growing) set, otherwise push a placeholder and record the address. -/
def addLoop : List ApiVault → List VaultRecord → List String → List VaultRecord
  | [], vaults, _ => vaults
  | v :: rest, vaults, seen =>
    if seen.contains (jsLower v.vaultAddress) then addLoop rest vaults seen
    else addLoop rest (vaults ++ [newVaultRecord v]) (seen ++ [jsLower v.vaultAddress])

/-- `addVaultsFromApi`: the local `vaults` array after the `add` mode runs,
given the API pages and the pre-existing local entries. -/
def addVaultsFromApi (batches : List (List ApiVault))
    (localVaults : List VaultRecord) : List VaultRecord :=
  addLoop (collectNoMetadata batches) localVaults
    (localVaults.map (fun v => jsLower v.vaultAddress))

/-- Modelled from the claim's words (as amended): the placeholder records to
append, one for each metadata-less API vault whose lower-cased address occurs
neither among the local entries nor among the placeholders appended so far. -/
def placeholdersSpec : List ApiVault → List String → List VaultRecord
  | [], _ => []
  | v :: rest, seen =>
    if seen.contains (jsLower v.vaultAddress) then placeholdersSpec rest seen
    else newVaultRecord v :: placeholdersSpec rest (seen ++ [jsLower v.vaultAddress])

theorem addLoop_eq_append (api : List ApiVault) (vaults : List VaultRecord)
    (seen : List String) :
    addLoop api vaults seen = vaults ++ placeholdersSpec api seen := by
  induction api generalizing vaults seen with
  | nil => simp [addLoop, placeholdersSpec]
  | cons v rest ih =>
    simp only [addLoop, placeholdersSpec]
    by_cases h : seen.contains (jsLower v.vaultAddress) = true
    · simp only [h, if_true, ih]
    · rw [Bool.not_eq_true] at h
      simp only [h, Bool.false_eq_true, if_false, ih, List.append_assoc,
        List.singleton_append]

/-- C4 (amended): the `add` mode leaves the existing entries unchanged and in
place and appends, after them, exactly one placeholder for each API vault that
lacks all metadata fields and whose lower-cased address occurs neither among
the local entries nor among the placeholders appended before it; and whenever
no inference keyword matches the staking token's name or symbol the
(placeholder-determining) protocol is "UNKNOWN" and the categories are
`["defi/yield"]`. -/
theorem addVaultsFromApi_spec (batches : List (List ApiVault))
    (localVaults : List VaultRecord) :
    addVaultsFromApi batches localVaults =
      localVaults ++ placeholdersSpec (batches.flatten.filter hasNoMetadata)
        (localVaults.map (fun v => jsLower v.vaultAddress)) ∧
    (∀ name symbol : String, keywordMatches name symbol = false →
      inferProtocol name symbol = "UNKNOWN" ∧ inferCategory name symbol = ["defi/yield"]) := by
  constructor
  · exact addLoop_eq_append _ _ _
  · intro name symbol h
    unfold keywordMatches at h
    simp only [Bool.or_eq_false_iff] at h
    refine ⟨?_, ?_⟩
    · unfold inferProtocol
      simp_all
    · unfold inferCategory
      simp_all

/-- A metadata-less API vault used to instantiate the `add`-mode theorems. -/
def sampleApiVault : ApiVault :=
  { vaultAddress := "0xAAAA"
    stakingToken := { address := "0xBBBB", name := "Foo", symbol := "BRR" } }

/-- Instantiation of C4 at one concrete page and an empty local list, with a
staking token matching no inference keyword. -/
theorem addVaultsFromApi_spec_witness :
    (addVaultsFromApi [[sampleApiVault]] [] =
      [] ++ placeholdersSpec ([[sampleApiVault]].flatten.filter hasNoMetadata)
        (([] : List VaultRecord).map (fun v => jsLower v.vaultAddress))) ∧
    keywordMatches "Foo" "BRR" = false ∧
    inferProtocol "Foo" "BRR" = "UNKNOWN" ∧ inferCategory "Foo" "BRR" = ["defi/yield"] :=
  ⟨(addVaultsFromApi_spec [[sampleApiVault]] []).1, by decide,
   (addVaultsFromApi_spec [[sampleApiVault]] []).2 "Foo" "BRR" (by decide)⟩

/-- Counterexample to C4 as frozen: when the remote listing repeats the same
metadata-less record twice, both records lack metadata and neither address
occurs among the (empty) local entries, yet only one placeholder is appended —
the second occurrence is skipped against the address just appended, not
against the local entries. -/
theorem addVaultsFromApi_duplicate_cex :
    (addVaultsFromApi [[sampleApiVault, sampleApiVault]] []).length = 1 ∧
    ([sampleApiVault, sampleApiVault].filter (fun v => hasNoMetadata v &&
      !(([] : List VaultRecord).map (fun w => jsLower w.vaultAddress)).contains
        (jsLower v.vaultAddress))).length = 2 := by
  decide

/-! ## fixImageDimensions.ts: fixImage -/

/-- An image file as sharp reports it: metadata plus the raw RGBA byte
buffer produced by `.raw().ensureAlpha()`. -/
structure Image where
  width : Nat
  height : Nat
  format : String
  data : List Nat
deriving DecidableEq, Repr

/-- The alpha bytes of a raw RGBA buffer: every fourth byte starting at
index 3, exactly the positions the transparency loop reads. -/
def alphaBytes : List Nat → List Nat
  | _r :: _g :: _b :: a :: rest => a :: alphaBytes rest
  | _ => []

/-- The transparency scan of `fixImage`: some alpha byte below 255. -/
def hasTransparency (data : List Nat) : Bool :=
  (alphaBytes data).any (fun a => a < 255)

/-- What `fixImage` did to the file on disk. -/
inductive FixOutcome where
  | unchanged
  | rewrote (result : Image)
  | errored
deriving DecidableEq, Repr

/-- `fixImage`: skip files already 1024x1024 opaque PNG; otherwise resize
onto a white 1024x1024 canvas via a temp file and rename over the original
(`resizeFlatten` stands for sharp's resize/removeAlpha/png pipeline, which may
fail).  Returns the success flag together with the effect on the file. -/
def fixImage (resizeFlatten : Image → Except String Image) (img : Image) :
    Bool × FixOutcome :=
  if img.width = 1024 ∧ img.height = 1024 ∧ img.format = "png" ∧
      hasTransparency img.data = false then
    (true, .unchanged)
  else
    match resizeFlatten img with
    | .ok fixed => (true, .rewrote fixed)
    | .error _ => (false, .errored)

/-- C5: on an image that is already 1024x1024, PNG, and fully opaque,
`fixImage` performs no write at all, reports success (so the caller counts it
as fixed, not failed) — for every possible behaviour of the resampler. -/
theorem fixImage_noop (resizeFlatten : Image → Except String Image) (img : Image)
    (hw : img.width = 1024) (hh : img.height = 1024) (hf : img.format = "png")
    (ha : hasTransparency img.data = false) :
    fixImage resizeFlatten img = (true, .unchanged) := by
  unfold fixImage
  rw [if_pos ⟨hw, hh, hf, ha⟩]

/-- A concrete opaque 1024x1024 PNG (two fully opaque RGBA pixels shown). -/
def opaquePng : Image :=
  { width := 1024, height := 1024, format := "png"
    data := [10, 20, 30, 255, 40, 50, 60, 255] }

/-- Instantiation of C5 at a concrete opaque 1024x1024 PNG. -/
theorem fixImage_noop_witness :
    fixImage (fun i => .ok i) opaquePng = (true, .unchanged) :=
  fixImage_noop _ _ rfl rfl rfl (by decide)

/-! ## imageGeneration/updateMetadata.ts: fetchLPTokens -/

/-- The result record of `fetchLPTokens`. -/
structure LPTokenInfo where
  stakingTokenAddress : String
  underlyingTokens : List String
  isLPToken : Bool
deriving DecidableEq, Repr

/-- `Promise.all` over two already-settled results: resolves with the pair
when both resolved, rejects when either rejected. -/
def promiseAll2 {α β : Type} (a : Except String α) (b : Except String β) :
    Except String (α × β) :=
  match a, b with
  | .ok x, .ok y => .ok (x, y)
  | .error e, _ => .error e
  | .ok _, .error e => .error e

/-- `fetchLPTokens`: read `token0` and `token1` from the staking token
contract; if either call fails, fall back to the staking token itself as the
single underlying token.  The contract-call results are passed in. -/
def fetchLPTokens (stakingTokenAddress : String)
    (token0Call token1Call : Except String String) : LPTokenInfo :=
  match promiseAll2 token0Call token1Call with
  | .ok (token0, token1) =>
    { stakingTokenAddress := stakingTokenAddress
      underlyingTokens := [token0, token1]
      isLPToken := true }
  | .error _ =>
    { stakingTokenAddress := stakingTokenAddress
      underlyingTokens := [stakingTokenAddress]
      isLPToken := false }

/-- C7: when both contract calls succeed, `fetchLPTokens` returns the two
returned addresses with `isLPToken := true`; when either call fails, it does
not propagate the error but returns the staking token itself as the sole
underlying token with `isLPToken := false`. -/
theorem fetchLPTokens_spec (addr : String) (c0 c1 : Except String String) :
    (∀ t0 t1, c0 = .ok t0 → c1 = .ok t1 →
      fetchLPTokens addr c0 c1 =
        { stakingTokenAddress := addr, underlyingTokens := [t0, t1], isLPToken := true }) ∧
    ((∃ e, c0 = .error e) ∨ (∃ e, c1 = .error e) →
      fetchLPTokens addr c0 c1 =
        { stakingTokenAddress := addr, underlyingTokens := [addr], isLPToken := false }) := by
  constructor
  · rintro t0 t1 rfl rfl
    rfl
  · rintro (⟨e, rfl⟩ | ⟨e, rfl⟩)
    · rfl
    · cases c0 <;> rfl

/-- Instantiation of C7 at concrete call results. -/
theorem fetchLPTokens_spec_witness :
    fetchLPTokens "0xLP" (.ok "0xT0") (.ok "0xT1") =
      { stakingTokenAddress := "0xLP", underlyingTokens := ["0xT0", "0xT1"],
        isLPToken := true } ∧
    fetchLPTokens "0xLP" (.error "revert") (.ok "0xT1") =
      { stakingTokenAddress := "0xLP", underlyingTokens := ["0xLP"],
        isLPToken := false } :=
  ⟨(fetchLPTokens_spec "0xLP" (.ok "0xT0") (.ok "0xT1")).1 "0xT0" "0xT1" rfl rfl,
   (fetchLPTokens_spec "0xLP" (.error "revert") (.ok "0xT1")).2 (Or.inl ⟨"revert", rfl⟩)⟩

/-! ## imageGeneration/mergeImages.ts: mergeTokenImages -/

/-- A gradient stop of a linear brand gradient. -/
structure GradientStop where
  offset : String
  color : String
deriving DecidableEq, Repr

/-- The `BrandColor` union of `_constants.ts`: a hex string or a linear
gradient descriptor. -/
inductive BrandColor where
  | solid (hex : String)
  | linear (angle : Int) (stops : List GradientStop)
deriving DecidableEq, Repr

/-- `mergeTokenImages`: dispatch on the number of image buffers — one, two or
three images go to the corresponding composition (sharp pipelines passed in as
`single`/`two`/`three`, which may fail); any other count logs an error message
and yields `null` without throwing.  The second component is the list of
messages printed with `console.error`. -/
def mergeTokenImages {Buf : Type} (single : Buf → Except String Buf)
    (two : Buf → Buf → Option BrandColor → Except String Buf)
    (three : Buf → Buf → Buf → Except String Buf)
    (imageBuffers : List Buf) (brandColor : Option BrandColor) :
    Except String (Option Buf) × List String :=
  match imageBuffers with
  | [b0] => ((single b0).map some, [])
  | [b0, b1] => ((two b0 b1 brandColor).map some, [])
  | [b0, b1, b2] => ((three b0 b1 b2).map some, [])
  | bs => (.ok none, ["Unsupported token count: " ++ toString bs.length])

/-- C8: for any buffer count other than 1, 2 or 3 `mergeTokenImages` returns
`null` with a logged error and no exception, and for counts 1, 2, 3 it
dispatches to the single-, two- and three-image compositions. -/
theorem mergeTokenImages_dispatch {Buf : Type} (single : Buf → Except String Buf)
    (two : Buf → Buf → Option BrandColor → Except String Buf)
    (three : Buf → Buf → Buf → Except String Buf)
    (imageBuffers : List Buf) (brandColor : Option BrandColor) :
    (imageBuffers.length ≠ 1 → imageBuffers.length ≠ 2 → imageBuffers.length ≠ 3 →
      mergeTokenImages single two three imageBuffers brandColor =
        (.ok none, ["Unsupported token count: " ++ toString imageBuffers.length])) ∧
    (∀ b0, imageBuffers = [b0] →
      mergeTokenImages single two three imageBuffers brandColor =
        ((single b0).map some, [])) ∧
    (∀ b0 b1, imageBuffers = [b0, b1] →
      mergeTokenImages single two three imageBuffers brandColor =
        ((two b0 b1 brandColor).map some, [])) ∧
    (∀ b0 b1 b2, imageBuffers = [b0, b1, b2] →
      mergeTokenImages single two three imageBuffers brandColor =
        ((three b0 b1 b2).map some, [])) := by
  refine ⟨?_, ?_, ?_, ?_⟩
  · intro h1 h2 h3
    match imageBuffers with
    | [] => rfl
    | [b0] => exact absurd rfl h1
    | [b0, b1] => exact absurd rfl h2
    | [b0, b1, b2] => exact absurd rfl h3
    | b0 :: b1 :: b2 :: b3 :: bs => rfl
  · rintro b0 rfl
    rfl
  · rintro b0 b1 rfl
    rfl
  · rintro b0 b1 b2 rfl
    rfl

/-- Instantiation of C8 with four buffers (and with one buffer). -/
theorem mergeTokenImages_dispatch_witness :
    @mergeTokenImages Nat Except.ok (fun a b _ => Except.ok (a + b))
        (fun a b c => Except.ok (a + b + c)) [1, 2, 3, 4] none =
      (.ok none, ["Unsupported token count: " ++ toString ([1, 2, 3, 4] : List Nat).length]) ∧
    @mergeTokenImages Nat Except.ok (fun a b _ => Except.ok (a + b))
        (fun a b c => Except.ok (a + b + c)) [7] none = ((Except.ok 7).map some, []) :=
  ⟨(mergeTokenImages_dispatch Except.ok (fun a b _ => Except.ok (a + b))
      (fun a b c => Except.ok (a + b + c)) [1, 2, 3, 4] none).1
        (by decide) (by decide) (by decide),
   (mergeTokenImages_dispatch Except.ok (fun a b _ => Except.ok (a + b))
      (fun a b c => Except.ok (a + b + c)) [7] none).2.1 7 rfl⟩

/-! ## validateOnChainData/_apiMetadata.ts: fetchMissingMetadata and
validateApiMetadata -/

/-- An element of a missing-metadata listing (the fields the warning loops
read; absent fields are `none`). -/
structure MItem where
  address : Option String := none
  vaultAddress : Option String := none
  stakingTokenAddress : Option String := none
deriving DecidableEq, Repr

/-- How a JSON field looks to the envelope discrimination: absent/falsy, a
truthy non-array value, or an array of items. -/
inductive JsField where
  | absent
  | nonArray
  | arrOf (xs : List MItem)
deriving DecidableEq, Repr

/-- The parsed response body: a bare array, or an object whose `data` and
`items` fields are described by `JsField`. -/
inductive JsBody where
  | arrOf (xs : List MItem)
  | obj (dataField itemsField : JsField)
deriving DecidableEq, Repr

/-- The observable outcome of the `fetch` + `response.json()` step for one
endpoint: a thrown network/parse exception, a non-OK HTTP response, or a
parsed body. -/
inductive FetchOutcome where
  | netError (msg : String)
  | httpError (status : Nat)
  | okBody (body : JsBody)
deriving DecidableEq, Repr

/-- The envelope normalization of `fetchMissingMetadata`: a bare array is
returned as is; otherwise a `data` array, then an `items` array, then `[]`. -/
def responseToList : JsBody → List MItem
  | .arrOf xs => xs
  | .obj (.arrOf xs) _ => xs
  | .obj _ (.arrOf xs) => xs
  | .obj _ _ => []

/-- `fetchMissingMetadata`: per-endpoint fetch returning the normalized item
list and the warnings printed to the console for this endpoint. -/
def fetchMissingMetadata (endpoint : String) (outcome : FetchOutcome) :
    List MItem × List String :=
  match outcome with
  | .httpError status =>
    if status = 401 ∨ status = 403 then
      ([], ["API authentication failed for " ++ endpoint ++
        ". Skipping API metadata validation."])
    else
      ([], ["API request failed for " ++ endpoint ++ " (" ++ toString status ++
        "). Skipping API metadata validation."])
  | .okBody body => (responseToList body, [])
  | .netError msg =>
    ([], ["Failed to fetch missing metadata from " ++ endpoint ++ ": " ++ msg ++
      ". Skipping API metadata validation."])

/-- JavaScript truthiness of a `string | undefined` value. -/
def jsTruthy : Option String → Bool
  | none => false
  | some s => !(s == "")

/-- JavaScript `a || b` on `string | undefined` values. -/
def jsOrStr (a b : Option String) : Option String :=
  if jsTruthy a then a else b

/-- The warning generated for one missing-incentive item, if any. -/
def incentiveWarning (item : MItem) : Option String :=
  let address := jsOrStr item.address item.stakingTokenAddress
  if jsTruthy address then
    some ("Missing metadata for incentive/staking token: " ++ address.getD "undefined" ++
      ". Consider adding metadata for this address.")
  else none

/-- The warning generated for one missing-vault item, if any. -/
def vaultWarning (item : MItem) : Option String :=
  if jsTruthy item.vaultAddress && jsTruthy item.stakingTokenAddress then
    some ("Missing metadata for vault: " ++ item.vaultAddress.getD "undefined" ++
      " (staking token: " ++ item.stakingTokenAddress.getD "undefined" ++
      "). Consider adding vault metadata.")
  else if jsTruthy item.vaultAddress then
    some ("Missing metadata for vault: " ++ item.vaultAddress.getD "undefined" ++
      ". Consider adding vault metadata.")
  else if jsTruthy item.stakingTokenAddress then
    some ("Missing metadata for staking token: " ++ item.stakingTokenAddress.getD "undefined" ++
      ". Consider adding vault metadata.")
  else none

/-- The incentives endpoint URL. -/
def INCENTIVES_ENDPOINT : String :=
  "https://hub.berachain-staging.com/api-internal/incentives/no-metadata/"

/-- The vaults endpoint URL. -/
def VAULTS_ENDPOINT : String :=
  "https://hub.berachain-staging.com/api-internal/vaults/no-metadata/"

/-- `validateApiMetadata`: skip everything when the bearer token is unset
(or empty), otherwise query both endpoints and push one warning per reported
entity into the shared warnings array.  Returns the updated warnings array. -/
def validateApiMetadata (bearerToken : Option String)
    (incOutcome vauOutcome : FetchOutcome) (warnings : List String) : List String :=
  if jsTruthy bearerToken = false then warnings
  else
    let missingIncentives := (fetchMissingMetadata INCENTIVES_ENDPOINT incOutcome).1
    let missingVaults := (fetchMissingMetadata VAULTS_ENDPOINT vauOutcome).1
    warnings ++ missingIncentives.filterMap incentiveWarning ++
      missingVaults.filterMap vaultWarning

/-- C9 (amended): the gap-checker never hard-fails — with the token unset it
leaves the warnings untouched; a non-OK HTTP status or a thrown
network/parse exception yields an empty list for that endpoint together with
exactly one console warning; the three recognized envelopes (bare array,
`data` array, `items` array) are normalized to the contained array; an
unrecognized envelope yields an empty list silently (without a console
warning). -/
theorem validateApiMetadata_spec (incOutcome vauOutcome : FetchOutcome)
    (warnings : List String) :
    (validateApiMetadata none incOutcome vauOutcome warnings = warnings) ∧
    (∀ endpoint status, ∃ w, fetchMissingMetadata endpoint (.httpError status) = ([], [w])) ∧
    (∀ endpoint msg, ∃ w, fetchMissingMetadata endpoint (.netError msg) = ([], [w])) ∧
    (∀ endpoint xs, fetchMissingMetadata endpoint (.okBody (.arrOf xs)) = (xs, [])) ∧
    (∀ endpoint xs itemsField,
      fetchMissingMetadata endpoint (.okBody (.obj (.arrOf xs) itemsField)) = (xs, [])) ∧
    (∀ endpoint dataField xs, (∀ ys, dataField ≠ .arrOf ys) →
      fetchMissingMetadata endpoint (.okBody (.obj dataField (.arrOf xs))) = (xs, [])) ∧
    (∀ endpoint dataField itemsField,
      (∀ ys, dataField ≠ .arrOf ys) → (∀ ys, itemsField ≠ .arrOf ys) →
      fetchMissingMetadata endpoint (.okBody (.obj dataField itemsField)) = ([], [])) := by
  refine ⟨rfl, ?_, ?_, fun _ _ => rfl, ?_, ?_, ?_⟩
  · intro endpoint status
    by_cases h : status = 401 ∨ status = 403
    · refine ⟨"API authentication failed for " ++ endpoint ++
        ". Skipping API metadata validation.", ?_⟩
      simp only [fetchMissingMetadata, if_pos h]
    · refine ⟨"API request failed for " ++ endpoint ++ " (" ++ toString status ++
        "). Skipping API metadata validation.", ?_⟩
      simp only [fetchMissingMetadata, if_neg h]
  · intro endpoint msg
    exact ⟨"Failed to fetch missing metadata from " ++ endpoint ++ ": " ++ msg ++
      ". Skipping API metadata validation.", rfl⟩
  · intro endpoint xs itemsField
    cases itemsField <;> rfl
  · intro endpoint dataField xs h
    cases dataField with
    | absent => rfl
    | nonArray => rfl
    | arrOf ys => exact absurd rfl (h ys)
  · intro endpoint dataField itemsField h1 h2
    cases dataField with
    | arrOf ys => exact absurd rfl (h1 ys)
    | absent =>
      cases itemsField with
      | arrOf ys => exact absurd rfl (h2 ys)
      | absent => rfl
      | nonArray => rfl
    | nonArray =>
      cases itemsField with
      | arrOf ys => exact absurd rfl (h2 ys)
      | absent => rfl
      | nonArray => rfl

/-- Instantiation of C9 at concrete outcomes. -/
theorem validateApiMetadata_spec_witness :
    (validateApiMetadata none (.httpError 500) (.netError "timeout") ["w0"] = ["w0"]) ∧
    (∃ w, fetchMissingMetadata INCENTIVES_ENDPOINT (.httpError 500) = ([], [w])) ∧
    (fetchMissingMetadata VAULTS_ENDPOINT
        (.okBody (.obj .nonArray (.arrOf [{ vaultAddress := some "0xV" }]))) =
      ([{ vaultAddress := some "0xV" }], [])) :=
  ⟨(validateApiMetadata_spec (.httpError 500) (.netError "timeout") ["w0"]).1,
   (validateApiMetadata_spec (.httpError 500) (.netError "timeout") ["w0"]).2.1
      INCENTIVES_ENDPOINT 500,
   (validateApiMetadata_spec (.httpError 500) (.netError "timeout") ["w0"]).2.2.2.2.2.1
      VAULTS_ENDPOINT .nonArray [{ vaultAddress := some "0xV" }] (by intro ys h; cases h)⟩

/-- Counterexample to C9 as frozen: at a concrete unrecognized response
envelope (an object with neither a `data` nor an `items` array) the endpoint
yields the empty list but logs no warning at all, contrary to the claim that
an unrecognized envelope results in a logged warning. -/
theorem fetchMissingMetadata_unrecognized_cex :
    fetchMissingMetadata INCENTIVES_ENDPOINT (.okBody (.obj .absent .absent)) = ([], []) ∧
    (fetchMissingMetadata INCENTIVES_ENDPOINT (.okBody (.obj .absent .absent))).2.length = 0 := by
  exact ⟨rfl, rfl⟩

/-! ## validateJSON.ts: error collection, reporting and exit status -/

/-- What happens when `validate` processes one data file: JSON parsing throws
(with the thrown error's message), or the compiled schema function returns
true or false. -/
inductive FileRun where
  | parseFailure (msg : String)
  | schemaValid
  | schemaInvalid
deriving DecidableEq, Repr

/-- The `errors` array built by the `validate` calls.  For a parse failure
the caught `Error` is pushed (its message is `some msg`); for a failed schema
check the script pushes `valid.errors`, where `valid` is the boolean returned
by the compiled schema function — property access on the primitive `false`
yields `undefined`, modeled as `none`. -/
def collectErrors (runs : List (String × FileRun)) : List (String × Option String) :=
  runs.foldl
    (fun errs fr =>
      match fr.2 with
      | .parseFailure msg => errs ++ [(fr.1, some msg)]
      | .schemaValid => errs
      | .schemaInvalid => errs ++ [(fr.1, none)]) []

/-- The final reporting loop: for each collected entry it prints the file
name and then `error[1].message`.  When the payload is `undefined` the
property access throws a TypeError, aborting the loop.  Returns the payload
messages successfully printed and whether the loop crashed. -/
def printErrorLoop : List (String × Option String) → List String × Bool
  | [] => ([], false)
  | (_, some msg) :: rest =>
    let r := printErrorLoop rest
    (msg :: r.1, r.2)
  | (_, none) :: _ => ([], true)

/-- The process exit status: 0 when no errors were collected (the script
falls through), 1 otherwise (either `process.exit(1)` or the uncaught
TypeError thrown while printing). -/
def validateExitCode (runs : List (String × FileRun)) : Nat :=
  if collectErrors runs = [] then 0 else 1

/-- C1 evaluated at the failing input: a single file that parses as JSON but
fails schema validation is collected with an `undefined` payload instead of
its structural errors (the script reads `.errors` off the boolean `valid`
rather than off the compiled validator), so the reporting loop crashes after
printing no error message; the exit status is still non-zero, and a run with
no errors still exits zero. -/
theorem validateJSON_schema_error_bug :
    collectErrors [("src/tokens/bad.json", .schemaInvalid)] =
      [("src/tokens/bad.json", none)] ∧
    printErrorLoop (collectErrors [("src/tokens/bad.json", .schemaInvalid)]) = ([], true) ∧
    validateExitCode [("src/tokens/bad.json", .schemaInvalid)] = 1 ∧
    validateExitCode [("src/tokens/good.json", .schemaValid)] = 0 ∧
    (collectErrors [("src/tokens/broken.json", .parseFailure "Unexpected token")] =
       [("src/tokens/broken.json", some "Unexpected token")] ∧
     printErrorLoop [("src/tokens/broken.json", some "Unexpected token")] =
       (["Unexpected token"], false)) := by
  refine ⟨rfl, rfl, ?_, ?_, rfl, rfl⟩ <;> decide

/-! ## fixChecksumAddresses.ts: processDirectory and its idempotence -/

/-- File names are modeled as lists of character codes. -/
abbrev FileName := List Nat

/-- Character codes of a string literal. -/
def strCodes (s : String) : List Nat := s.data.map Char.toNat

/-- ASCII lower-casing on a character code. -/
def jsLowerCode (c : Nat) : Nat := if 65 ≤ c ∧ c ≤ 90 then c + 32 else c

/-- ASCII upper-casing on a character code. -/
def jsUpperCode (c : Nat) : Nat := if 97 ≤ c ∧ c ≤ 122 then c - 32 else c

/-- Lower-casing of a whole name. -/
def lowerCodes (n : FileName) : FileName := n.map jsLowerCode

/-- JavaScript's `name.replace(pat, "")` for string patterns: remove the
first occurrence of `pat`, if any. -/
def replaceFirst : FileName → FileName → FileName
  | [], _ => []
  | c :: cs, pat =>
    if takesLead pat (c :: cs) then (c :: cs).drop pat.length
    else c :: replaceFirst cs pat

/-- Index of the last dot (code 46) in a name, if any. -/
def lastDotIdx : FileName → Option Nat
  | [] => none
  | c :: cs =>
    match lastDotIdx cs with
    | some i => some (i + 1)
    | none => if c = 46 then some 0 else none

/-- Node's `path.extname` on a bare file name: the suffix starting at the
last dot, except that a dot at position 0 does not start an extension. -/
def extname (n : FileName) : FileName :=
  match lastDotIdx n with
  | none => []
  | some 0 => []
  | some i => n.drop i

/-- A hexadecimal digit character (either case). -/
def isHexDigitCode (c : Nat) : Bool :=
  (48 ≤ c && c ≤ 57) || (97 ≤ c && c ≤ 102) || (65 ≤ c && c ≤ 70)

/-- A lower-case hexadecimal digit character. -/
def isLowHexCode (c : Nat) : Bool := (48 ≤ c && c ≤ 57) || (97 ≤ c && c ≤ 102)

/-- EIP-55 mixed-casing: starting at digit position `i`, upper-case each
digit whose corresponding keccak nibble is at least 8. -/
def checksumFrom (nibs : List Nat) : Nat → FileName → FileName
  | _, [] => []
  | i, d :: ds =>
    (if 8 ≤ nibs.getD i 0 then jsUpperCode d else d) :: checksumFrom nibs (i + 1) ds

/-- viem's `getAddress`: reject anything that is not `0x` followed by 40 hex
digits, otherwise lower-case the digits and apply the checksum casing driven
by the keccak nibbles.  `kec` abstracts the keccak-256 hash of the 40
lower-cased digit characters, read as the sequence of its nibbles. -/
def getAddress (kec : FileName → List Nat) (addr : FileName) : Option FileName :=
  if addr.length = 42 ∧ takesLead (strCodes "0x") addr = true ∧
      (addr.drop 2).all isHexDigitCode = true then
    some (strCodes "0x" ++
      checksumFrom (kec (lowerCodes (addr.drop 2))) 0 (lowerCodes (addr.drop 2)))
  else none

/-- The image extensions the walk processes. -/
def imageExts : List FileName := [strCodes ".png", strCodes ".jpg", strCodes ".jpeg"]

/-- What `processDirectory` does to a single file entry. -/
inductive FileAction where
  | renamed (newName : FileName)
  | invalidAddress
  | skipped
deriving DecidableEq, Repr

/-- The per-file decision of `processDirectory`: qualify by (lower-cased)
extension, strip that extension, skip names containing "default" or not
starting with "0x", fail on invalid addresses, and rename to
`<checksum><ext>` exactly when the checksummed form differs. -/
def processFileName (kec : FileName → List Nat) (name : FileName) : FileAction :=
  let ext := lowerCodes (extname name)
  if imageExts.contains ext then
    let fileName := replaceFirst name ext
    if containsSeq fileName (strCodes "default") then .skipped
    else if takesLead (strCodes "0x") fileName then
      match getAddress kec fileName with
      | some checksumAddress =>
        if fileName ≠ checksumAddress then .renamed (checksumAddress ++ ext)
        else .skipped
      | none => .invalidAddress
    else .skipped
  else .skipped

/-- The name a file carries after the walk visited it. -/
def afterName (kec : FileName → List Nat) (n : FileName) : FileName :=
  match processFileName kec n with
  | .renamed m => m
  | _ => n

/-- Whether an action is a rename (`fixed++` in the script). -/
def isRenamed : FileAction → Bool
  | .renamed _ => true
  | _ => false

/-- A directory tree of file names. -/
inductive FsTree where
  | dir (files : List FileName) (subs : List FsTree)

mutual

/-- One run of `processDirectory` over a tree: every qualifying file is
renamed to its checksummed form; the second component counts the renames. -/
def processTree (kec : FileName → List Nat) : FsTree → FsTree × Nat
  | .dir files subs =>
    let rest := processSubs kec subs
    (.dir (files.map (afterName kec)) rest.1,
     files.countP (fun n => isRenamed (processFileName kec n)) + rest.2)

/-- The walk over a list of subdirectories. -/
def processSubs (kec : FileName → List Nat) : List FsTree → List FsTree × Nat
  | [] => ([], 0)
  | t :: ts =>
    let r1 := processTree kec t
    let r2 := processSubs kec ts
    (r1.1 :: r2.1, r1.2 + r2.2)

end

theorem takesLead_append_self (p r : FileName) : takesLead p (p ++ r) = true := by
  induction p with
  | nil => rfl
  | cons c cs ih => simp [takesLead, ih]

theorem takesLead_subset (p s : FileName) (h : takesLead p s = true) :
    ∀ c ∈ p, c ∈ s := by
  induction p generalizing s with
  | nil => intro c hc; cases hc
  | cons x xs ih =>
    cases s with
    | nil => cases h
    | cons y ys =>
      simp only [takesLead, Bool.and_eq_true, beq_iff_eq] at h
      intro c hc
      rcases List.mem_cons.mp hc with rfl | hc
      · exact h.1 ▸ List.mem_cons_self _ _
      · exact List.mem_cons_of_mem _ (ih ys h.2 c hc)

theorem containsSeq_subset (s pat : FileName) (h : containsSeq s pat = true) :
    ∀ c ∈ pat, c ∈ s := by
  induction s with
  | nil =>
    simp only [containsSeq, List.isEmpty_iff] at h
    subst h
    intro c hc
    cases hc
  | cons y ys ih =>
    simp only [containsSeq, Bool.or_eq_true] at h
    rcases h with h | h
    · exact takesLead_subset pat (y :: ys) h
    · exact fun c hc => List.mem_cons_of_mem _ (ih h c hc)

theorem replaceFirst_strip (xs : FileName) (hd : Nat) (tl : FileName)
    (hxs : ∀ c ∈ xs, c ≠ hd) :
    replaceFirst (xs ++ hd :: tl) (hd :: tl) = xs := by
  induction xs with
  | nil =>
    have h : takesLead (hd :: tl) (hd :: tl) = true := by
      have h2 := takesLead_append_self (hd :: tl) []
      rwa [List.append_nil] at h2
    simp [replaceFirst, h, List.drop_length]
  | cons x xs ih =>
    have hx : x ≠ hd := hxs x (List.mem_cons_self x xs)
    have hb : (hd == x) = false := beq_eq_false_iff_ne.mpr (fun h => hx h.symm)
    have hlead : takesLead (hd :: tl) (x :: (xs ++ hd :: tl)) = false := by
      simp [takesLead, hb]
    simp only [List.cons_append, replaceFirst, List.append_eq, hlead,
      Bool.false_eq_true, if_false]
    rw [ih (fun c hc => hxs c (List.mem_cons_of_mem _ hc))]

theorem lastDotIdx_of_no_dot (n : FileName) (h : ∀ c ∈ n, c ≠ 46) :
    lastDotIdx n = none := by
  induction n with
  | nil => rfl
  | cons c cs ih =>
    have h1 := ih (fun d hd => h d (List.mem_cons_of_mem _ hd))
    have h2 := h c (List.mem_cons_self _ _)
    simp [lastDotIdx, h1, h2]

theorem lastDotIdx_append_dot (xs ys : FileName) (h : ∀ c ∈ ys, c ≠ 46) :
    lastDotIdx (xs ++ 46 :: ys) = some xs.length := by
  induction xs with
  | nil =>
    simp [lastDotIdx, lastDotIdx_of_no_dot ys h]
  | cons x xs ih =>
    simp [lastDotIdx, ih]

theorem extname_append_ext (xs rest : FileName)
    (hrest : ∀ c ∈ rest, c ≠ 46) (hne : xs ≠ []) :
    extname (xs ++ 46 :: rest) = 46 :: rest := by
  unfold extname
  rw [lastDotIdx_append_dot xs rest hrest]
  have hlen : xs.length ≠ 0 := fun h => hne (List.length_eq_zero.mp h)
  obtain ⟨k, hk⟩ := Nat.exists_eq_succ_of_ne_zero hlen
  rw [Nat.succ_eq_add_one] at hk
  rw [hk]
  show (xs ++ 46 :: rest).drop (k + 1) = 46 :: rest
  rw [← hk, List.drop_left]

theorem lowHex_hexDigit (d : Nat) (h : isLowHexCode d = true) :
    isHexDigitCode d = true := by
  unfold isLowHexCode at h
  unfold isHexDigitCode
  simp only [Bool.or_eq_true, Bool.and_eq_true, decide_eq_true_eq] at h ⊢
  omega

theorem jsUpperCode_hexDigit (d : Nat) (h : isLowHexCode d = true) :
    isHexDigitCode (jsUpperCode d) = true := by
  unfold isLowHexCode at h
  unfold jsUpperCode isHexDigitCode
  simp only [Bool.or_eq_true, Bool.and_eq_true, decide_eq_true_eq] at h ⊢
  by_cases hc : 97 ≤ d ∧ d ≤ 122
  · rw [if_pos hc]
    omega
  · rw [if_neg hc]
    omega

theorem jsLowerCode_jsUpperCode (d : Nat) (h : isLowHexCode d = true) :
    jsLowerCode (jsUpperCode d) = d := by
  unfold isLowHexCode at h
  unfold jsUpperCode jsLowerCode
  simp only [Bool.or_eq_true, Bool.and_eq_true, decide_eq_true_eq] at h
  by_cases hc : 97 ≤ d ∧ d ≤ 122
  · rw [if_pos hc]
    split
    · omega
    · next hno => exact absurd (by omega) hno
  · rw [if_neg hc]
    split
    · next hyes => omega
    · rfl

theorem jsLowerCode_lowHex (d : Nat) (h : isLowHexCode d = true) :
    jsLowerCode d = d := by
  unfold isLowHexCode at h
  unfold jsLowerCode
  simp only [Bool.or_eq_true, Bool.and_eq_true, decide_eq_true_eq] at h
  rw [if_neg (by omega)]

theorem jsLowerCode_hex_low (d : Nat) (h : isHexDigitCode d = true) :
    isLowHexCode (jsLowerCode d) = true := by
  unfold isHexDigitCode at h
  unfold jsLowerCode isLowHexCode
  simp only [Bool.or_eq_true, Bool.and_eq_true, decide_eq_true_eq] at h ⊢
  by_cases hc : 65 ≤ d ∧ d ≤ 90
  · rw [if_pos hc]
    omega
  · rw [if_neg hc]
    omega

theorem length_checksumFrom (nibs : List Nat) (i : Nat) (ds : FileName) :
    (checksumFrom nibs i ds).length = ds.length := by
  induction ds generalizing i with
  | nil => rfl
  | cons d ds ih => simp [checksumFrom, ih]

theorem all_hex_checksumFrom (nibs : List Nat) (i : Nat) (ds : FileName)
    (h : ds.all isLowHexCode = true) :
    (checksumFrom nibs i ds).all isHexDigitCode = true := by
  induction ds generalizing i with
  | nil => rfl
  | cons d ds ih =>
    simp only [List.all_cons, Bool.and_eq_true] at h
    simp only [checksumFrom, List.all_cons, Bool.and_eq_true]
    refine ⟨?_, ih (i + 1) h.2⟩
    by_cases hb : 8 ≤ nibs.getD i 0
    · rw [if_pos hb]
      exact jsUpperCode_hexDigit d h.1
    · rw [if_neg hb]
      exact lowHex_hexDigit d h.1

theorem lower_checksumFrom (nibs : List Nat) (i : Nat) (ds : FileName)
    (h : ds.all isLowHexCode = true) :
    lowerCodes (checksumFrom nibs i ds) = ds := by
  induction ds generalizing i with
  | nil => rfl
  | cons d ds ih =>
    simp only [List.all_cons, Bool.and_eq_true] at h
    simp only [checksumFrom, lowerCodes, List.map_cons]
    have hd : jsLowerCode (if 8 ≤ nibs.getD i 0 then jsUpperCode d else d) = d := by
      by_cases hb : 8 ≤ nibs.getD i 0
      · rw [if_pos hb]
        exact jsLowerCode_jsUpperCode d h.1
      · rw [if_neg hb]
        exact jsLowerCode_lowHex d h.1
    rw [hd]
    have ht := ih (i + 1) h.2
    unfold lowerCodes at ht
    rw [ht]

theorem all_low_lowerCodes (ds : FileName) (h : ds.all isHexDigitCode = true) :
    (lowerCodes ds).all isLowHexCode = true := by
  unfold lowerCodes
  rw [List.all_map]
  rw [List.all_eq_true] at h ⊢
  exact fun d hd => jsLowerCode_hex_low d (h d hd)

theorem getAddress_fixed (kec : FileName → List Nat) (digits : FileName)
    (hlen : digits.length = 40) (hhex : digits.all isLowHexCode = true) :
    getAddress kec (strCodes "0x" ++ checksumFrom (kec digits) 0 digits) =
      some (strCodes "0x" ++ checksumFrom (kec digits) 0 digits) := by
  have h2 : (strCodes "0x").length = 2 := by decide
  have hdrop : (strCodes "0x" ++ checksumFrom (kec digits) 0 digits).drop 2 =
      checksumFrom (kec digits) 0 digits := by
    rw [← h2, List.drop_left]
  unfold getAddress
  rw [if_pos ⟨by rw [List.length_append, h2, length_checksumFrom, hlen],
    takesLead_append_self _ _,
    by rw [hdrop]; exact all_hex_checksumFrom _ _ _ hhex⟩]
  rw [hdrop, lower_checksumFrom _ _ _ hhex]

theorem mem_checksummed (kec : FileName → List Nat) (digits : FileName)
    (hhex : digits.all isLowHexCode = true) (c : Nat)
    (hc : c ∈ strCodes "0x" ++ checksumFrom (kec digits) 0 digits) :
    c = 48 ∨ c = 120 ∨ isHexDigitCode c = true := by
  rcases List.mem_append.mp hc with h | h
  · have hx : strCodes "0x" = [48, 120] := by decide
    rw [hx] at h
    rcases List.mem_cons.mp h with rfl | h
    · exact Or.inl rfl
    · rcases List.mem_cons.mp h with rfl | h
      · exact Or.inr (Or.inl rfl)
      · cases h
  · exact Or.inr (Or.inr
      (List.all_eq_true.mp (all_hex_checksumFrom _ _ _ hhex) c h))

theorem checksummed_no_dot (kec : FileName → List Nat) (digits : FileName)
    (hhex : digits.all isLowHexCode = true) (c : Nat)
    (hc : c ∈ strCodes "0x" ++ checksumFrom (kec digits) 0 digits) : c ≠ 46 := by
  rcases mem_checksummed kec digits hhex c hc with rfl | rfl | h
  · omega
  · omega
  · unfold isHexDigitCode at h
    simp only [Bool.or_eq_true, Bool.and_eq_true, decide_eq_true_eq] at h
    omega

theorem checksummed_no_u (kec : FileName → List Nat) (digits : FileName)
    (hhex : digits.all isLowHexCode = true) (c : Nat)
    (hc : c ∈ strCodes "0x" ++ checksumFrom (kec digits) 0 digits) : c ≠ 117 := by
  rcases mem_checksummed kec digits hhex c hc with rfl | rfl | h
  · omega
  · omega
  · unfold isHexDigitCode at h
    simp only [Bool.or_eq_true, Bool.and_eq_true, decide_eq_true_eq] at h
    omega

theorem imageExts_shape (ext : FileName) (h : ext ∈ imageExts) :
    ∃ rest, ext = 46 :: rest ∧ (∀ c ∈ rest, c ≠ 46) ∧ lowerCodes ext = ext := by
  unfold imageExts at h
  rcases List.mem_cons.mp h with rfl | h
  · exact ⟨strCodes "png", by decide, by decide, by decide⟩
  rcases List.mem_cons.mp h with rfl | h
  · exact ⟨strCodes "jpg", by decide, by decide, by decide⟩
  rcases List.mem_cons.mp h with rfl | h
  · exact ⟨strCodes "jpeg", by decide, by decide, by decide⟩
  cases h

theorem processFileName_checksummed (kec : FileName → List Nat)
    (digits ext : FileName) (hlen : digits.length = 40)
    (hhex : digits.all isLowHexCode = true) (hext : ext ∈ imageExts) :
    processFileName kec ((strCodes "0x" ++ checksumFrom (kec digits) 0 digits) ++ ext) =
      .skipped := by
  obtain ⟨rest, hshape, hrest, hlow⟩ := imageExts_shape ext hext
  have hca : strCodes "0x" ++ checksumFrom (kec digits) 0 digits ≠ [] := by
    intro h
    have h48 : (48 : Nat) ∈ strCodes "0x" ++ checksumFrom (kec digits) 0 digits :=
      List.mem_append_left _ (by decide)
    rw [h] at h48
    cases h48
  have hext1 : extname ((strCodes "0x" ++ checksumFrom (kec digits) 0 digits) ++ ext) =
      ext := by
    rw [hshape]
    exact extname_append_ext _ _ hrest hca
  have hrep : replaceFirst
      ((strCodes "0x" ++ checksumFrom (kec digits) 0 digits) ++ ext) ext =
      strCodes "0x" ++ checksumFrom (kec digits) 0 digits := by
    rw [hshape]
    exact replaceFirst_strip _ _ _ (fun c hc => checksummed_no_dot kec digits hhex c hc)
  have hdefault : containsSeq (strCodes "0x" ++ checksumFrom (kec digits) 0 digits)
      (strCodes "default") = false := by
    rw [Bool.eq_false_iff]
    intro h
    have h117 : (117 : Nat) ∈ strCodes "default" := by decide
    exact checksummed_no_u kec digits hhex 117
      (containsSeq_subset _ _ h 117 h117) rfl
  have hlead : takesLead (strCodes "0x")
      (strCodes "0x" ++ checksumFrom (kec digits) 0 digits) = true :=
    takesLead_append_self _ _
  unfold processFileName
  simp only [hext1, hlow, List.elem_iff.mpr hext, if_true, hrep, hdefault,
    Bool.false_eq_true, if_false, hlead, getAddress_fixed kec digits hlen hhex]
  simp

theorem processFileName_after (kec : FileName → List Nat) (n : FileName) :
    isRenamed (processFileName kec (afterName kec n)) = false := by
  unfold afterName
  cases hp : processFileName kec n with
  | invalidAddress =>
    rw [hp]
    rfl
  | skipped =>
    rw [hp]
    rfl
  | renamed m =>
    show isRenamed (processFileName kec m) = false
    simp only [processFileName] at hp
    split at hp
    · next hcont =>
      split at hp
      · cases hp
      · split at hp
        · split at hp
          · next xopt ca heq =>
            split at hp
            · rw [FileAction.renamed.injEq] at hp
              subst hp
              unfold getAddress at heq
              split at heq
              · next hguard =>
                rw [Option.some_inj] at heq
                obtain ⟨hlen42, _, hallhex⟩ := hguard
                have hdiglen : (lowerCodes ((replaceFirst n
                    (lowerCodes (extname n))).drop 2)).length = 40 := by
                  have hmap : ∀ l : FileName, (lowerCodes l).length = l.length :=
                    fun l => List.length_map l jsLowerCode
                  rw [hmap, List.length_drop, hlen42]
                have hdighex := all_low_lowerCodes _ hallhex
                rw [← heq]
                rw [processFileName_checksummed kec _ _ hdiglen hdighex
                  (List.elem_iff.mp hcont)]
                rfl
              · cases heq
            · cases hp
          · next xopt heq => cases hp
        · cases hp
    · cases hp

theorem afterName_idem (kec : FileName → List Nat) (n : FileName) :
    afterName kec (afterName kec n) = afterName kec n := by
  have h := processFileName_after kec n
  unfold afterName
  cases hp : processFileName kec (afterName kec n) with
  | renamed m =>
    rw [hp] at h
    cases h
  | invalidAddress =>
    unfold afterName at hp
    rw [hp]
  | skipped =>
    unfold afterName at hp
    rw [hp]

mutual

theorem processTree_idem (kec : FileName → List Nat) :
    ∀ t : FsTree, processTree kec (processTree kec t).1 = ((processTree kec t).1, 0)

  | .dir files subs => by
    have hsubs := processSubs_idem kec subs
    have hcount : (files.map (afterName kec)).countP
        (fun n => isRenamed (processFileName kec n)) = 0 := by
      rw [List.countP_eq_zero]
      intro a ha
      obtain ⟨b, _, rfl⟩ := List.mem_map.mp ha
      simp [processFileName_after kec b]
    have hmap : (files.map (afterName kec)).map (afterName kec) =
        files.map (afterName kec) := by
      rw [List.map_map]
      apply List.map_congr_left
      intro n _
      exact afterName_idem kec n
    simp [processTree, hsubs, hcount, hmap]

theorem processSubs_idem (kec : FileName → List Nat) :
    ∀ ts : List FsTree, processSubs kec (processSubs kec ts).1 = ((processSubs kec ts).1, 0)

  | [] => by simp [processSubs]
  | t :: ts => by
    have h1 := processTree_idem kec t
    have h2 := processSubs_idem kec ts
    simp [processSubs, h1, h2]

end

/-- C6: the checksum normalizer is idempotent — after one run of
`processDirectory` over any directory tree (and any keccak hash function), a
second run returns the same tree and performs zero renames: every renamed
file now carries the canonical checksummed name, which `getAddress` maps to
itself, and every skipped or failed file is unchanged and treated
identically again. -/
theorem fixChecksumAddresses_idempotent (kec : FileName → List Nat) (t : FsTree) :
    processTree kec (processTree kec t).1 = ((processTree kec t).1, 0) :=
  processTree_idem kec t
